import Mathlib

/-
Verification of the Simple-Transaction-Manager repository.

Shallow embedding of the Rust sources:
  src/decimal.rs          -> STM.Decimal
  src/client.rs           -> STM.Client
  src/transaction.rs      -> STM.DisputableType, STM.DisputableTransaction, STM.Transaction
  src/transaction_set.rs  -> STM.TState, STM.UpdateFailure, STM.txUpdate (MemoryClient)
  src/main.rs             -> STM.processTx (process_transaction)

Machine integers are modelled as Nat.  Additions that are performed on u16
or u64 in Rust carry an explicit modulus (65536 = 2^16, and
18446744073709551616 = 2^64).  Nat subtraction is truncated; in the Rust
source every subtraction is guarded by the surrounding match so that it
cannot underflow on the inputs our theorems quantify over.
-/

deriving instance DecidableEq for Except

namespace STM

/-- 2^16, the modulus of u16 arithmetic. -/
def U16 : Nat := 65536

/-- 2^64, the modulus of u64 arithmetic. -/
def U64 : Nat := 18446744073709551616

/-- Fixed-precision decimal from src/decimal.rs: `dollars: u64`, `cents: u16`.
PRECISION = 4, so one dollar is 10000 cents. -/
structure Decimal where
  dollars : Nat
  cents : Nat
deriving DecidableEq

namespace Decimal

/-- Decimal::zero(), i.e. Default::default(). -/
def zero : Decimal := ⟨0, 0⟩

/-- impl AddAssign for Decimal (src/decimal.rs:45-51):
cents are added first (u16 arithmetic), the carry `cents / 10^4` is taken
from that u16 sum and added into dollars (u64 arithmetic), then cents is
reduced mod 10^4. -/
def addAssign (a b : Decimal) : Decimal :=
  let c1 := (a.cents + b.cents) % U16
  { dollars := (a.dollars + b.dollars + c1 / 10000) % U64
    cents := c1 % 10000 }

/-- impl Add for Decimal: defined via AddAssign. -/
def add (a b : Decimal) : Decimal := addAssign a b

/-- Decimal::new(dollars, cents): builds the raw struct and normalizes by
adding zero. -/
def new (dollars cents : Nat) : Decimal := addAssign ⟨dollars, cents⟩ zero

/-- impl Sub for Decimal (src/decimal.rs:53-91).  Returns `.ok diff` or
`.error shortfall`, following the five match arms on
`(dollars.checked_sub, cents >= cents)` in source order.  The u16 sums
`10000 + cents` carry the 2^16 modulus of the source. -/
def sub (a b : Decimal) : Except Decimal Decimal :=
  if a.dollars < b.dollars then
    -- checked_sub returned None
    if b.cents ≤ a.cents then
      -- arm (None, true)
      .error ⟨b.dollars - a.dollars - 1, (10000 + b.cents) % U16 - a.cents⟩
    else
      -- arm (None, false)
      .error ⟨b.dollars - a.dollars, b.cents - a.cents⟩
  else
    if b.cents ≤ a.cents then
      -- arm (Some(dollars), true)
      .ok ⟨a.dollars - b.dollars, a.cents - b.cents⟩
    else if a.dollars = b.dollars then
      -- arm (Some(0), false)
      .error ⟨0, b.cents - a.cents⟩
    else
      -- arm (Some(dollars), false) with dollars > 0
      .ok ⟨a.dollars - b.dollars - 1, (10000 + a.cents) % U16 - b.cents⟩

/-- Numeric value of a decimal, in units of 1/10000 dollar. -/
def val (d : Decimal) : Nat := d.dollars * 10000 + d.cents

end Decimal

/-- Specification of addAssign/add on inputs whose cents are in range.
The right operand may carry cents up to 10000 because a subtraction
shortfall (which can be `⟨k, 10000⟩`) is sometimes added back. -/
theorem Decimal.addAssign_spec (a b : Decimal) (ha : a.cents ≤ 9999)
    (hb : b.cents ≤ 10000) (hd : a.dollars + b.dollars + 1 < U64) :
    (Decimal.addAssign a b).val = a.val + b.val ∧
      (Decimal.addAssign a b).cents ≤ 9999 := by
  unfold Decimal.addAssign Decimal.val
  simp only [U16, U64] at *
  constructor
  · have h1 : (a.cents + b.cents) % 65536 = a.cents + b.cents :=
      Nat.mod_eq_of_lt (by omega)
    rw [h1]
    have h2 : (a.dollars + b.dollars + (a.cents + b.cents) / 10000) %
        18446744073709551616 = a.dollars + b.dollars + (a.cents + b.cents) / 10000 :=
      Nat.mod_eq_of_lt (by omega)
    rw [h2]
    omega
  · have h1 : (a.cents + b.cents) % 65536 = a.cents + b.cents :=
      Nat.mod_eq_of_lt (by omega)
    rw [h1]
    omega

/-- Specification of sub on inputs whose cents are in range (left operand
normalized, right operand possibly a shortfall with cents up to 10000):
success is equivalent to numeric `b ≤ a`, the difference and the shortfall
are numerically exact, Ok results are normalized, and Err results have
cents at most 10000. -/
theorem Decimal.sub_spec (a b : Decimal) (ha : a.cents ≤ 9999)
    (hb : b.cents ≤ 10000) :
    ((∃ c, Decimal.sub a b = .ok c) ↔ b.val ≤ a.val) ∧
      (∀ c, Decimal.sub a b = .ok c → c.val + b.val = a.val ∧ c.cents ≤ 9999) ∧
      (∀ e, Decimal.sub a b = .error e → e.val + a.val = b.val ∧ e.cents ≤ 10000) := by
  unfold Decimal.sub
  simp only [U16]
  have h16 : ∀ x : Nat, x ≤ 10000 → (10000 + x) % 65536 = 10000 + x := by
    intro x hx; exact Nat.mod_eq_of_lt (by omega)
  split_ifs with h1 h2 h3 h4
  · -- (None, true): error
    rw [h16 b.cents hb]
    refine ⟨⟨fun ⟨c, hc⟩ => by simp at hc, fun hv => ?_⟩, fun c hc => by simp at hc,
      fun e he => ?_⟩
    · exfalso; unfold Decimal.val at hv; omega
    · simp only [Except.error.injEq] at he
      subst he; unfold Decimal.val; simp only []; constructor <;> omega
  · -- (None, false): error
    refine ⟨⟨fun ⟨c, hc⟩ => by simp at hc, fun hv => ?_⟩, fun c hc => by simp at hc,
      fun e he => ?_⟩
    · exfalso; unfold Decimal.val at hv; omega
    · simp only [Except.error.injEq] at he
      subst he; unfold Decimal.val; simp only []; constructor <;> omega
  · -- (Some, true): ok
    refine ⟨⟨fun _ => ?_, fun _ => ⟨_, rfl⟩⟩, fun c hc => ?_, fun e he => by simp at he⟩
    · unfold Decimal.val; omega
    · simp only [Except.ok.injEq] at hc
      subst hc; unfold Decimal.val; simp only []; constructor <;> omega
  · -- (Some(0), false): error
    refine ⟨⟨fun ⟨c, hc⟩ => by simp at hc, fun hv => ?_⟩, fun c hc => by simp at hc,
      fun e he => ?_⟩
    · exfalso; unfold Decimal.val at hv; omega
    · simp only [Except.error.injEq] at he
      subst he; unfold Decimal.val; simp only []; constructor <;> omega
  · -- (Some(d), false) with d > 0: ok
    rw [h16 a.cents (by omega)]
    refine ⟨⟨fun _ => ?_, fun _ => ⟨_, rfl⟩⟩, fun c hc => ?_, fun e he => by simp at he⟩
    · unfold Decimal.val; omega
    · simp only [Except.ok.injEq] at hc
      subst hc; unfold Decimal.val; simp only []; constructor <;> omega

/-- Per-client account state from src/client.rs. -/
structure Client where
  id : Nat
  available : Decimal
  held : Decimal
  held_reserve : Decimal
  reserve : Decimal
  locked : Bool
deriving DecidableEq

namespace Client

/-- Client::new(id). -/
def new (id : Nat) : Client :=
  ⟨id, Decimal.zero, Decimal.zero, Decimal.zero, Decimal.zero, false⟩

/-- Client::deposit (src/client.rs:38-49): satisfy the held_reserve backlog
first; the leftover goes to available. -/
def deposit (c : Client) (amount : Decimal) : Client :=
  match Decimal.sub c.held_reserve amount with
  | .ok v =>
      { c with held_reserve := v, held := Decimal.add c.held amount }
  | .error v =>
      { c with held := Decimal.add c.held c.held_reserve,
               held_reserve := Decimal.zero,
               available := Decimal.add c.available v }

/-- Client::withdraw (src/client.rs:51-59): `.error none` is the Frozen
case, `.error (some available)` the insufficient-funds case. -/
def withdraw (c : Client) (amount : Decimal) : Client × Except (Option Decimal) Unit :=
  match c.locked, Decimal.sub c.available amount with
  | true, _ => (c, .error none)
  | false, .ok v => ({ c with available := v }, .ok ())
  | false, .error _ => (c, .error (some c.available))

/-- Client::dispute_deposit (src/client.rs:61-72). -/
def dispute_deposit (c : Client) (amount : Decimal) : Client :=
  match Decimal.sub c.available amount with
  | .ok v =>
      { c with held := Decimal.add c.held amount, available := v }
  | .error v =>
      { c with held := Decimal.add c.held c.available,
               available := Decimal.zero,
               held_reserve := Decimal.add c.held_reserve v }

/-- Client::dispute_withdrawal (src/client.rs:74-76). -/
def dispute_withdrawal (c : Client) (amount : Decimal) : Client :=
  { c with reserve := Decimal.add c.reserve amount }

/-- Client::resolve_deposit (src/client.rs:78-96). -/
def resolve_deposit (c : Client) (amount : Decimal) : Client × Except Decimal Unit :=
  match Decimal.sub c.held_reserve amount with
  | .ok v => ({ c with held_reserve := v }, .ok ())
  | .error rem =>
      match Decimal.sub c.held rem with
      | .ok new_held =>
          ({ c with held_reserve := Decimal.zero,
                    held := new_held,
                    available := Decimal.add c.available rem }, .ok ())
      | .error _ => (c, .error (Decimal.add c.held c.held_reserve))

/-- Client::resolve_withdrawal (src/client.rs:97-104). -/
def resolve_withdrawal (c : Client) (amount : Decimal) : Client × Except Decimal Unit :=
  match Decimal.sub c.reserve amount with
  | .ok new_reserve => ({ c with reserve := new_reserve }, .ok ())
  | .error _ => (c, .error c.reserve)

/-- Client::chargeback_deposit (src/client.rs:106-124): sets locked
unconditionally before the relief attempt; the freed amount is forfeited. -/
def chargeback_deposit (c : Client) (amount : Decimal) : Client × Except Decimal Unit :=
  let c := { c with locked := true }
  match Decimal.sub c.held_reserve amount with
  | .ok v => ({ c with held_reserve := v }, .ok ())
  | .error rem =>
      match Decimal.sub c.held rem with
      | .ok v =>
          ({ c with held_reserve := Decimal.zero, held := v }, .ok ())
      | .error _ => (c, .error (Decimal.add c.held c.held_reserve))

/-- Client::chargeback_withdrawal (src/client.rs:126-135): sets locked
unconditionally, then relieves the reserve and restores the amount. -/
def chargeback_withdrawal (c : Client) (amount : Decimal) : Client × Except Decimal Unit :=
  let c := { c with locked := true }
  match Decimal.sub c.reserve amount with
  | .ok new_reserve =>
      ({ c with reserve := new_reserve,
                available := Decimal.add c.available amount }, .ok ())
  | .error _ => (c, .error c.reserve)

end Client

/-- State enum of src/transaction_set.rs. -/
inductive TState where
  | Committed
  | Resolved
  | Disputed
  | ChargedBack
  | ChargedBackFinal
deriving DecidableEq

/-- UpdateFailure enum of src/transaction_set.rs. -/
inductive UpdateFailure where
  | NotFound
  | WrongState (s : TState)
deriving DecidableEq

/-- DisputableType from src/transaction.rs. -/
inductive DisputableType where
  | Deposit (d : Decimal)
  | Withdrawal (d : Decimal)
deriving DecidableEq

/-- DisputableTransaction from src/transaction.rs. -/
structure DisputableTransaction where
  client_id : Nat
  transaction_id : Nat
  type_ : DisputableType
deriving DecidableEq

/-- The HashMap held by MemoryClient, as a function map. -/
def TxMap : Type := Nat → Option (DisputableTransaction × TState)

/-- HashMap::insert. -/
def insertT (m : TxMap) (id : Nat) (v : DisputableTransaction × TState) : TxMap :=
  fun k => if k = id then some v else m k

/-- MemoryClient::store (src/transaction_set.rs:32-34): always stores in
state Committed, silently overwriting any entry with the same id. -/
def txStore (m : TxMap) (t : DisputableTransaction) : TxMap :=
  insertT m t.transaction_id (t, TState.Committed)

/-- MemoryClient::update (src/transaction_set.rs:38-59), with the match
arms in source order: the two explicit success arms, then the or-pattern
failure arm, then the catch-all success arm. -/
def txUpdate (m : TxMap) (id : Nat) (state : TState) :
    TxMap × Except UpdateFailure DisputableTransaction :=
  match m id with
  | none => (m, .error .NotFound)
  | some (t, s) =>
    match s, state with
    | .Resolved, .Committed => (insertT m id (t, state), .ok t)
    | .ChargedBack, .ChargedBackFinal => (insertT m id (t, state), .ok t)
    | .ChargedBackFinal, _ => (m, .error (.WrongState s))
    | _, .ChargedBackFinal => (m, .error (.WrongState s))
    | .ChargedBack, _ => (m, .error (.WrongState s))
    | .Committed, .ChargedBack => (m, .error (.WrongState s))
    | .Committed, .Committed => (m, .error (.WrongState s))
    | .Resolved, _ => (m, .error (.WrongState s))
    | _, _ => (insertT m id (t, state), .ok t)

/-- Type enum from src/transaction.rs. -/
inductive TType where
  | Disputable (t : DisputableType)
  | Dispute
  | Resolve
  | Chargeback
deriving DecidableEq

/-- Transaction from src/transaction.rs. -/
structure Transaction where
  client_id : Nat
  transaction_id : Nat
  type_ : TType
deriving DecidableEq

/-- The HashMap of clients in main.rs, as a function map. -/
def ClMap : Type := Nat → Option Client

/-- HashMap::insert on the client map. -/
def insertC (m : ClMap) (id : Nat) (c : Client) : ClMap :=
  fun k => if k = id then some c else m k

/-- The `clients.entry(id).or_insert(Client::new(id))` lookup of main.rs. -/
def getOrNew (m : ClMap) (id : Nat) : Client :=
  (m id).getD (Client.new id)

/-- Mutable state threaded through process_transaction: the client map and
the transaction ledger. -/
structure EngineState where
  clients : ClMap
  txmap : TxMap

/-- process_transaction (src/main.rs:19-114).  The account named by the
event's client field is looked up (or created) first — that is the
`entry(..).or_insert(..)` call, rendered here as `getOrNew` plus the
`insertC` present in every arm; every arm then mutates exactly that entry.
Ledger failures and account failures only print, so they appear here as
arms that keep the relevant state.  The source matches on a pair
`(value, account_result)`; the same case analysis is nested here (record
kind first, then the account result). -/
def processTx (tr : Transaction) (st : EngineState) : EngineState :=
  match tr.type_ with
  | .Disputable (.Deposit d) =>
      { clients := insertC st.clients tr.client_id
          (Client.deposit (getOrNew st.clients tr.client_id) d)
        txmap := txStore st.txmap ⟨tr.client_id, tr.transaction_id, .Deposit d⟩ }
  | .Disputable (.Withdrawal w) =>
      match Client.withdraw (getOrNew st.clients tr.client_id) w with
      | (c, .error _) =>
          { clients := insertC st.clients tr.client_id c, txmap := st.txmap }
      | (c, .ok _) =>
          { clients := insertC st.clients tr.client_id c
            txmap := txStore st.txmap ⟨tr.client_id, tr.transaction_id, .Withdrawal w⟩ }
  | .Dispute =>
      match txUpdate st.txmap tr.transaction_id .Disputed with
      | (tm, .error _) =>
          { clients := insertC st.clients tr.client_id (getOrNew st.clients tr.client_id)
            txmap := tm }
      | (tm, .ok r) =>
          { clients := insertC st.clients tr.client_id
              (match r.type_ with
                | .Deposit v => Client.dispute_deposit (getOrNew st.clients tr.client_id) v
                | .Withdrawal v =>
                    Client.dispute_withdrawal (getOrNew st.clients tr.client_id) v)
            txmap := tm }
  | .Resolve =>
      match txUpdate st.txmap tr.transaction_id .Resolved with
      | (tm, .error _) =>
          { clients := insertC st.clients tr.client_id (getOrNew st.clients tr.client_id)
            txmap := tm }
      | (tm, .ok r) =>
          match (match r.type_ with
            | .Deposit v => Client.resolve_deposit (getOrNew st.clients tr.client_id) v
            | .Withdrawal v =>
                Client.resolve_withdrawal (getOrNew st.clients tr.client_id) v) with
          | (c, .ok _) =>
              { clients := insertC st.clients tr.client_id c
                txmap := (txUpdate tm tr.transaction_id .Committed).1 }
          | (c, .error _) =>
              { clients := insertC st.clients tr.client_id c
                txmap := (txUpdate tm tr.transaction_id .Disputed).1 }
  | .Chargeback =>
      match txUpdate st.txmap tr.transaction_id .ChargedBack with
      | (tm, .error _) =>
          { clients := insertC st.clients tr.client_id (getOrNew st.clients tr.client_id)
            txmap := tm }
      | (tm, .ok r) =>
          match (match r.type_ with
            | .Deposit v => Client.chargeback_deposit (getOrNew st.clients tr.client_id) v
            | .Withdrawal v =>
                Client.chargeback_withdrawal (getOrNew st.clients tr.client_id) v) with
          | (c, .ok _) =>
              { clients := insertC st.clients tr.client_id c
                txmap := (txUpdate tm tr.transaction_id .ChargedBackFinal).1 }
          | (c, .error _) =>
              { clients := insertC st.clients tr.client_id c
                txmap := (txUpdate tm tr.transaction_id .Disputed).1 }

/-- One account-level operation of src/client.rs, for reasoning about
sequences of calls on a single account. -/
inductive AccountOp where
  | depositOp (a : Decimal)
  | withdrawOp (a : Decimal)
  | disputeDepositOp (a : Decimal)
  | disputeWithdrawalOp (a : Decimal)
  | resolveDepositOp (a : Decimal)
  | resolveWithdrawalOp (a : Decimal)
  | chargebackDepositOp (a : Decimal)
  | chargebackWithdrawalOp (a : Decimal)
deriving DecidableEq

/-- Apply one account operation, keeping the resulting state (results are
dropped, as the caller in main.rs only logs them). -/
def applyOp (op : AccountOp) (c : Client) : Client :=
  match op with
  | .depositOp a => Client.deposit c a
  | .withdrawOp a => (Client.withdraw c a).1
  | .disputeDepositOp a => Client.dispute_deposit c a
  | .disputeWithdrawalOp a => Client.dispute_withdrawal c a
  | .resolveDepositOp a => (Client.resolve_deposit c a).1
  | .resolveWithdrawalOp a => (Client.resolve_withdrawal c a).1
  | .chargebackDepositOp a => (Client.chargeback_deposit c a).1
  | .chargebackWithdrawalOp a => (Client.chargeback_withdrawal c a).1

/-- Apply a sequence of account operations left to right. -/
def applyOps (l : List AccountOp) (c : Client) : Client :=
  l.foldl (fun c op => applyOp op c) c

/-- Whether an operation is one of the two chargeback operations. -/
def isChargebackOp : AccountOp → Bool
  | .chargebackDepositOp _ => true
  | .chargebackWithdrawalOp _ => true
  | _ => false

/-- The characters of the base-10 representation of a natural number, most
significant digit first ("{}" formatting of an integer). -/
def natToChars (n : Nat) : List Char :=
  if n = 0 then ['0'] else ((Nat.digits 10 n).map Nat.digitChar).reverse

/-- Left zero padding to width 4, the "{:04}" format used for cents. -/
def padZero4 (s : List Char) : List Char :=
  List.replicate (4 - s.length) '0' ++ s

/-- impl Display for Decimal (src/decimal.rs:31-35): "{}.{:04}". -/
def Decimal.display (d : Decimal) : List Char :=
  natToChars d.dollars ++ '.' :: padZero4 (natToChars d.cents)

/-- u64::from_str: an optional leading plus sign, then at least one ASCII
digit, failing when the value does not fit in a u64. -/
def parseNatU64 (s : List Char) : Option Nat :=
  let ds := if s.head? = some '+' then s.tail else s
  if ds = [] then none
  else if ds.all Char.isDigit then
    let v := ds.foldl (fun a c => a * 10 + (c.toNat - 48)) 0
    if v < U64 then some v else none
  else none

/-- u16::from_str applied to a one-character slice of the fractional part. -/
def parseDigit (c : Char) : Option Nat :=
  if c.isDigit then some (c.toNat - 48) else none

/-- The (0..PRECISION).fold of FromStr (src/decimal.rs:116-123): for each
of the four fractional positions, take the digit at that index, or 0 once
the string has ended; a non-digit character fails the whole parse. -/
def centsFold (cs : List Char) : Option Nat :=
  (List.range 4).foldl
    (fun total i =>
      total.bind fun t =>
        (match cs[i]? with
          | none => some 0
          | some c => parseDigit c).map fun v => t * 10 + v)
    (some 0)

/-- impl FromStr for Decimal (src/decimal.rs:96-126), on character lists:
empty input is an error, the string splits at the first dot, an empty
whole part counts as 0, and the fractional fold reads the first four
characters after the dot. -/
def Decimal.fromChars (s : List Char) : Option Decimal :=
  if s = [] then none
  else
    let dollarsStr := s.takeWhile (fun c => c != '.')
    let centsStr := (s.dropWhile (fun c => c != '.')).tail
    match (if dollarsStr = [] then some 0 else parseNatU64 dollarsStr) with
    | none => none
    | some dollars =>
      match centsFold centsStr with
      | none => none
      | some cents => some ⟨dollars, cents⟩

/-- Big-endian numeric value of a list of digit characters. -/
def digitsVal (cs : List Char) : Nat :=
  cs.foldl (fun a c => a * 10 + (c.toNat - 48)) 0

theorem digitChar_toNat (d : Nat) (h : d < 10) : (Nat.digitChar d).toNat = 48 + d := by
  interval_cases d <;> rfl

theorem digitChar_isDigit (d : Nat) (h : d < 10) : (Nat.digitChar d).isDigit = true := by
  interval_cases d <;> rfl

theorem natToChars_isDigit (n : Nat) : ∀ c ∈ natToChars n, c.isDigit = true := by
  intro c hc
  unfold natToChars at hc
  split at hc
  · simp at hc; subst hc; rfl
  · rw [List.mem_reverse, List.mem_map] at hc
    obtain ⟨d, hd, rfl⟩ := hc
    exact digitChar_isDigit d (Nat.digits_lt_base (by norm_num) hd)

theorem natToChars_ne_nil (n : Nat) : natToChars n ≠ [] := by
  unfold natToChars
  split
  · simp
  · simp [Nat.digits_ne_nil_iff_ne_zero, *]

theorem foldl_digitChar_reverse (ds : List Nat) (h : ∀ d ∈ ds, d < 10) (a : Nat) :
    ((ds.map Nat.digitChar).reverse).foldl (fun x c => x * 10 + (c.toNat - 48)) a
      = a * 10 ^ ds.length + Nat.ofDigits 10 ds := by
  induction ds generalizing a with
  | nil => simp [Nat.ofDigits]
  | cons d ds ih =>
    have hd : d < 10 := h d (by simp)
    have h' : ∀ x ∈ ds, x < 10 := fun x hx => h x (by simp [hx])
    rw [List.map_cons, List.reverse_cons, List.foldl_append, ih h']
    simp only [List.foldl_cons, List.foldl_nil, digitChar_toNat d hd,
      Nat.ofDigits_cons, List.length_cons]
    ring_nf
    omega

theorem digitsVal_natToChars (n : Nat) : digitsVal (natToChars n) = n := by
  unfold digitsVal natToChars
  split
  · subst ‹n = 0›; rfl
  · rw [foldl_digitChar_reverse _ (fun d hd => Nat.digits_lt_base (by norm_num) hd)]
    simp [Nat.ofDigits_digits]

theorem parseNatU64_natToChars (n : Nat) (h : n < U64) :
    parseNatU64 (natToChars n) = some n := by
  obtain ⟨c, cs, hs⟩ : ∃ c cs, natToChars n = c :: cs := by
    cases hx : natToChars n with
    | nil => exact absurd hx (natToChars_ne_nil n)
    | cons c cs => exact ⟨c, cs, rfl⟩
  have hdig : ∀ x ∈ natToChars n, x.isDigit = true := natToChars_isDigit n
  have hcplus : c ≠ '+' := by
    intro hplus
    have := hdig c (by rw [hs]; simp)
    rw [hplus] at this
    simp [Char.isDigit] at this
  unfold parseNatU64
  rw [hs]
  simp only [List.head?_cons, Option.some.injEq, if_neg hcplus]
  rw [if_neg (by simp)]
  rw [if_pos (by rw [← hs]; simpa using hdig)]
  have hv : (c :: cs).foldl (fun a c => a * 10 + (c.toNat - 48)) 0 = n := by
    rw [← hs, ← digitsVal]
    exact digitsVal_natToChars n
  rw [hv, if_pos h]

theorem split_at_dot (l1 l2 : List Char) (h : ∀ c ∈ l1, c ≠ '.') :
    (l1 ++ '.' :: l2).takeWhile (fun c => c != '.') = l1 ∧
      (l1 ++ '.' :: l2).dropWhile (fun c => c != '.') = '.' :: l2 := by
  induction l1 with
  | nil => simp [List.takeWhile, List.dropWhile]
  | cons a l ih =>
    have ha : a ≠ '.' := h a (by simp)
    have h' : ∀ c ∈ l, c ≠ '.' := fun c hc => h c (by simp [hc])
    obtain ⟨ih1, ih2⟩ := ih h'
    rw [List.cons_append]
    constructor
    · rw [List.takeWhile_cons, if_pos (by simpa using ha), ih1]
    · rw [List.dropWhile_cons, if_pos (by simpa using ha), ih2]

theorem natToChars_len_le4 (n : Nat) (h : n ≤ 9999) : (natToChars n).length ≤ 4 := by
  unfold natToChars
  split
  · simp
  · rw [List.length_reverse, List.length_map]
    by_contra hlen
    have h5 : 5 ≤ (Nat.digits 10 n).length := by omega
    have h1 : (10 : Nat) ^ (Nat.digits 10 n).length ≤ 10 * n :=
      Nat.base_pow_length_digits_le 10 n (by norm_num) ‹n ≠ 0›
    have h2 : (10 : Nat) ^ 5 ≤ 10 ^ (Nat.digits 10 n).length :=
      Nat.pow_le_pow_right (by norm_num) h5
    norm_num at h2
    omega

theorem centsFold_len4 (cs : List Char) (hlen : cs.length = 4)
    (hdig : ∀ c ∈ cs, c.isDigit = true) :
    centsFold cs = some (digitsVal cs) := by
  match cs, hlen with
  | [a, b, c, d], _ =>
    have ha := hdig a (by simp)
    have hb := hdig b (by simp)
    have hc := hdig c (by simp)
    have hd := hdig d (by simp)
    have hr : List.range 4 = [0, 1, 2, 3] := rfl
    simp [centsFold, hr, parseDigit, ha, hb, hc, hd, digitsVal]

theorem foldl_replicate_zero (k : Nat) :
    (List.replicate k '0').foldl (fun a c => a * 10 + (c.toNat - 48)) 0 = 0 := by
  induction k with
  | zero => rfl
  | succ k ih => rw [List.replicate_succ, List.foldl_cons]; simpa using ih

theorem digitsVal_padZero4 (s : List Char) : digitsVal (padZero4 s) = digitsVal s := by
  unfold digitsVal padZero4
  rw [List.foldl_append, foldl_replicate_zero]



/-- C1: for every pair of (normalized) decimal values a and b, subtract
returns Ok exactly when a ≥ b; the Ok result carries exactly the numeric
difference a - b, and the Err result carries a decimal value numerically
equal to the positive shortfall b - a. -/
theorem c1_subtract_exact (a b : Decimal) (ha : a.cents ≤ 9999) (hb : b.cents ≤ 9999) :
    ((∃ c, Decimal.sub a b = .ok c) ↔ Decimal.val b ≤ Decimal.val a)
      ∧ (∀ c, Decimal.sub a b = .ok c → Decimal.val c + Decimal.val b = Decimal.val a)
      ∧ (∀ e, Decimal.sub a b = .error e → Decimal.val e + Decimal.val a = Decimal.val b) := by
  obtain ⟨h1, h2, h3⟩ := Decimal.sub_spec a b ha (by omega)
  exact ⟨h1, fun c hc => (h2 c hc).1, fun e he => (h3 e he).1⟩

/-- Witness for c1_subtract_exact at a = 3.5000, b = 1.8000. -/
theorem c1_subtract_exact_witness :
    ((∃ c, Decimal.sub ⟨3, 5000⟩ ⟨1, 8000⟩ = .ok c) ↔
        Decimal.val ⟨1, 8000⟩ ≤ Decimal.val ⟨3, 5000⟩)
      ∧ (∀ c, Decimal.sub ⟨3, 5000⟩ ⟨1, 8000⟩ = .ok c →
          Decimal.val c + Decimal.val ⟨1, 8000⟩ = Decimal.val ⟨3, 5000⟩)
      ∧ (∀ e, Decimal.sub ⟨3, 5000⟩ ⟨1, 8000⟩ = .error e →
          Decimal.val e + Decimal.val ⟨3, 5000⟩ = Decimal.val ⟨1, 8000⟩) :=
  c1_subtract_exact ⟨3, 5000⟩ ⟨1, 8000⟩ (by decide) (by decide)

/-- C2: the normalization invariant fails on the Err result of
subtraction.  With both operands normalized (cents 0), subtracting
1.0000 from 0.0000 hits the (None, true) arm, whose shortfall is built as
`10000 + 0 - 0 = 10000` cents — outside [0, 9999].  The claim (and the
spec invariant it quotes) says every produced value has cents in
[0, 9999]; the code produces cents = 10000 here. -/
theorem c2_sub_err_cents_out_of_range :
    Decimal.sub ⟨0, 0⟩ ⟨1, 0⟩ = .error ⟨0, 10000⟩
      ∧ ¬ ((⟨0, 10000⟩ : Decimal).cents ≤ 9999) := by decide

/-- C9: parsing the display string of any representable decimal (whole
part below 2^64, fractional part in [0, 9999]) yields exactly that
decimal. -/
theorem c9_parse_display_roundtrip (x : Decimal) (hd : x.dollars < U64)
    (hc : x.cents ≤ 9999) :
    Decimal.fromChars (Decimal.display x) = some x := by
  have hdigD : ∀ c ∈ natToChars x.dollars, c.isDigit = true := natToChars_isDigit _
  have hdotD : ∀ c ∈ natToChars x.dollars, c ≠ '.' := by
    intro c hcm hdot
    have := hdigD c hcm
    rw [hdot] at this
    simp [Char.isDigit] at this
  obtain ⟨ht, hdr⟩ :=
    split_at_dot (natToChars x.dollars) (padZero4 (natToChars x.cents)) hdotD
  have hlenP : (padZero4 (natToChars x.cents)).length = 4 := by
    unfold padZero4
    rw [List.length_append, List.length_replicate]
    have := natToChars_len_le4 x.cents hc
    omega
  have hdigP : ∀ c ∈ padZero4 (natToChars x.cents), c.isDigit = true := by
    intro c hcm
    unfold padZero4 at hcm
    rw [List.mem_append] at hcm
    rcases hcm with h | h
    · rw [List.mem_replicate] at h
      rw [h.2]
      rfl
    · exact natToChars_isDigit _ c h
  unfold Decimal.display Decimal.fromChars
  rw [if_neg (by simp)]
  rw [ht, hdr]
  simp only [List.tail_cons]
  rw [if_neg (natToChars_ne_nil x.dollars)]
  rw [parseNatU64_natToChars x.dollars hd]
  rw [centsFold_len4 _ hlenP hdigP, digitsVal_padZero4, digitsVal_natToChars]

/-- Witness for c9_parse_display_roundtrip at x = 3.0045. -/
theorem c9_parse_display_roundtrip_witness :
    Decimal.fromChars (Decimal.display ⟨3, 45⟩) = some ⟨3, 45⟩ :=
  c9_parse_display_roundtrip ⟨3, 45⟩ (by decide) (by decide)

/-- The conserved quantity of the spec: available + held + held_reserve,
as a numeric value. -/
def sumAHR (c : Client) : Nat :=
  Decimal.val c.available + Decimal.val c.held + Decimal.val c.held_reserve

/-- An account with a held_reserve backlog of 1.0000, reached from a fresh
account by disputing a deposit of 1.0000 whose funds never arrived. -/
def c5client : Client := Client.dispute_deposit (Client.new 7) ⟨1, 0⟩

/-- C5 counterexample: depositing 1.0000 into an account whose
held_reserve is 1.0000 leaves available + held + held_reserve unchanged —
the deposit is absorbed by the reserve backlog — so the sum does not grow
by the deposited amount as the claim requires. -/
theorem c5_deposit_not_conserving :
    sumAHR (Client.deposit c5client ⟨1, 0⟩) ≠ sumAHR c5client + Decimal.val ⟨1, 0⟩ := by
  decide

/-- C5 amended: after deposit(amount), available + held + held_reserve
grows by the part of the amount not absorbed by the held_reserve backlog,
i.e. by amount minus held_reserve, truncated at zero (so exactly by the
amount whenever held_reserve is zero). -/
theorem c5_deposit_conservation (c : Client) (a : Decimal)
    (hav : c.available.cents ≤ 9999) (hh : c.held.cents ≤ 9999)
    (hhr : c.held_reserve.cents ≤ 9999) (ha : a.cents ≤ 9999)
    (hov : c.available.dollars + c.held.dollars + c.held_reserve.dollars
        + a.dollars + 2 < U64) :
    sumAHR (Client.deposit c a)
      = sumAHR c + (Decimal.val a - Decimal.val c.held_reserve) := by
  obtain ⟨hiff, hok, herr⟩ := Decimal.sub_spec c.held_reserve a hhr (by omega)
  unfold sumAHR Client.deposit
  cases h : Decimal.sub c.held_reserve a with
  | ok v =>
    obtain ⟨hv, _⟩ := hok v h
    have hle : Decimal.val a ≤ Decimal.val c.held_reserve := hiff.mp ⟨v, h⟩
    obtain ⟨hadd, _⟩ := Decimal.addAssign_spec c.held a hh (by omega) (by omega)
    simp only [Decimal.add] at *
    simp only [hadd]
    omega
  | error v =>
    obtain ⟨hv, hvc⟩ := herr v h
    have hgt : ¬ (Decimal.val a ≤ Decimal.val c.held_reserve) := by
      intro hle
      obtain ⟨cc, hcc⟩ := hiff.mpr hle
      rw [h] at hcc
      cases hcc
    have hvd : v.dollars ≤ a.dollars := by
      have h1 : v.dollars * 10000 + v.cents + Decimal.val c.held_reserve
          = a.dollars * 10000 + a.cents := hv
      omega
    obtain ⟨hadd1, _⟩ := Decimal.addAssign_spec c.held c.held_reserve hh (by omega)
      (by omega)
    obtain ⟨hadd2, _⟩ := Decimal.addAssign_spec c.available v hav hvc (by omega)
    simp only [Decimal.add] at *
    simp only [hadd1, hadd2]
    have hz : Decimal.val Decimal.zero = 0 := rfl
    simp only [hz]
    omega

/-- Witness for c5_deposit_conservation with held_reserve zero: a fresh
account receiving 2.5000; the sum grows by exactly the deposit. -/
theorem c5_deposit_conservation_witness :
    sumAHR (Client.deposit (Client.new 1) ⟨2, 5000⟩)
      = sumAHR (Client.new 1)
        + (Decimal.val ⟨2, 5000⟩ - Decimal.val (Client.new 1).held_reserve) :=
  c5_deposit_conservation (Client.new 1) ⟨2, 5000⟩ (by decide) (by decide) (by decide)
    (by decide) (by decide)

/-- Every field of an account except `available`, for no-mutation
statements. -/
def exceptAvail (c : Client) : Nat × Decimal × Decimal × Decimal × Bool :=
  (c.id, c.held, c.held_reserve, c.reserve, c.locked)

/-- C6: withdraw fails with the Frozen error (`.error none`) whenever the
account is locked, regardless of amount; otherwise it fails with the
Insufficient error carrying the current available balance when the amount
exceeds available; otherwise it succeeds and decreases available by
exactly the amount, touching nothing else.  Both failure cases leave the
account exactly as it was. -/
theorem c6_withdraw_spec (c : Client) (a : Decimal)
    (hav : c.available.cents ≤ 9999) (ha : a.cents ≤ 9999) :
    (c.locked = true → Client.withdraw c a = (c, .error none))
      ∧ (c.locked = false → Decimal.val c.available < Decimal.val a →
          Client.withdraw c a = (c, .error (some c.available)))
      ∧ (c.locked = false → Decimal.val a ≤ Decimal.val c.available →
          (Client.withdraw c a).2 = .ok ()
            ∧ Decimal.val (Client.withdraw c a).1.available + Decimal.val a
                = Decimal.val c.available
            ∧ exceptAvail (Client.withdraw c a).1 = exceptAvail c) := by
  obtain ⟨hiff, hok, herr⟩ := Decimal.sub_spec c.available a hav (by omega)
  refine ⟨fun hl => ?_, fun hl hlt => ?_, fun hl hle => ?_⟩
  · cases h : Decimal.sub c.available a <;> simp only [Client.withdraw, hl, h]
  · cases h : Decimal.sub c.available a with
    | ok v =>
      exfalso
      have := hiff.mp ⟨v, h⟩
      omega
    | error v => simp only [Client.withdraw, hl, h]
  · obtain ⟨v, hv⟩ := hiff.mpr hle
    obtain ⟨hval, _⟩ := hok v hv
    simp only [Client.withdraw, hl, hv, exceptAvail]
    exact ⟨by trivial, hval, by trivial⟩

/-- Witness for c6_withdraw_spec: an unlocked account holding 5.0000 and a
withdrawal of 2.0000. -/
theorem c6_withdraw_spec_witness :
    let c : Client := ⟨3, ⟨5, 0⟩, Decimal.zero, Decimal.zero, Decimal.zero, false⟩
    (c.locked = true → Client.withdraw c ⟨2, 0⟩ = (c, .error none))
      ∧ (c.locked = false → Decimal.val c.available < Decimal.val ⟨2, 0⟩ →
          Client.withdraw c ⟨2, 0⟩ = (c, .error (some c.available)))
      ∧ (c.locked = false → Decimal.val ⟨2, 0⟩ ≤ Decimal.val c.available →
          (Client.withdraw c ⟨2, 0⟩).2 = .ok ()
            ∧ Decimal.val (Client.withdraw c ⟨2, 0⟩).1.available + Decimal.val ⟨2, 0⟩
                = Decimal.val c.available
            ∧ exceptAvail (Client.withdraw c ⟨2, 0⟩).1 = exceptAvail c) :=
  c6_withdraw_spec ⟨3, ⟨5, 0⟩, Decimal.zero, Decimal.zero, Decimal.zero, false⟩ ⟨2, 0⟩
    (by decide) (by decide)

/-- Every field of an account except available, held and held_reserve. -/
def exceptHeldAvail (c : Client) : Nat × Decimal × Bool :=
  (c.id, c.reserve, c.locked)

/-- C8: resolve_deposit succeeds exactly when the amount is at most
held + held_reserve; on success it relieves held_reserve first and moves
the remainder from held to available; on failure it reports
held + held_reserve and mutates nothing. -/
theorem c8_resolve_deposit_spec (c : Client) (a : Decimal)
    (hav : c.available.cents ≤ 9999) (hh : c.held.cents ≤ 9999)
    (hhr : c.held_reserve.cents ≤ 9999) (ha : a.cents ≤ 9999)
    (hov1 : c.available.dollars + a.dollars + 1 < U64)
    (hov2 : c.held.dollars + c.held_reserve.dollars + 1 < U64) :
    ((Client.resolve_deposit c a).2 = .ok () ↔
        Decimal.val a ≤ Decimal.val c.held + Decimal.val c.held_reserve)
      ∧ (Decimal.val a ≤ Decimal.val c.held + Decimal.val c.held_reserve →
          Decimal.val (Client.resolve_deposit c a).1.held_reserve
              = Decimal.val c.held_reserve - Decimal.val a
            ∧ Decimal.val (Client.resolve_deposit c a).1.held
              = Decimal.val c.held - (Decimal.val a - Decimal.val c.held_reserve)
            ∧ Decimal.val (Client.resolve_deposit c a).1.available
              = Decimal.val c.available + (Decimal.val a - Decimal.val c.held_reserve)
            ∧ exceptHeldAvail (Client.resolve_deposit c a).1 = exceptHeldAvail c)
      ∧ (Decimal.val c.held + Decimal.val c.held_reserve < Decimal.val a →
          (Client.resolve_deposit c a).1 = c
            ∧ ∃ e, (Client.resolve_deposit c a).2 = .error e
                ∧ Decimal.val e = Decimal.val c.held + Decimal.val c.held_reserve) := by
  obtain ⟨hiff1, hok1, herr1⟩ := Decimal.sub_spec c.held_reserve a hhr (by omega)
  cases h1 : Decimal.sub c.held_reserve a with
  | ok v =>
    obtain ⟨hv, _⟩ := hok1 v h1
    have hle : Decimal.val a ≤ Decimal.val c.held_reserve := hiff1.mp ⟨v, h1⟩
    simp only [Client.resolve_deposit, h1, exceptHeldAvail]
    exact ⟨⟨fun _ => by omega, fun _ => by trivial⟩,
      fun _ => ⟨by omega, by omega, by omega, by trivial⟩,
      fun hgt => absurd hle (by omega)⟩
  | error rem =>
    obtain ⟨hrem, hremc⟩ := herr1 rem h1
    have hgt1 : Decimal.val c.held_reserve < Decimal.val a := by
      rcases Nat.lt_or_ge (Decimal.val c.held_reserve) (Decimal.val a) with h | h
      · exact h
      · obtain ⟨cc, hcc⟩ := hiff1.mpr h
        rw [h1] at hcc
        cases hcc
    obtain ⟨hiff2, hok2, herr2⟩ := Decimal.sub_spec c.held rem hh hremc
    cases h2 : Decimal.sub c.held rem with
    | ok nh =>
      obtain ⟨hnh, _⟩ := hok2 nh h2
      have hle2 : Decimal.val rem ≤ Decimal.val c.held := hiff2.mp ⟨nh, h2⟩
      have hremd : rem.dollars ≤ a.dollars := by
        have h3 : rem.dollars * 10000 + rem.cents + Decimal.val c.held_reserve
            = a.dollars * 10000 + a.cents := hrem
        unfold Decimal.val at h3
        omega
      obtain ⟨hadd, _⟩ := Decimal.addAssign_spec c.available rem hav hremc (by omega)
      have hz : Decimal.val Decimal.zero = 0 := rfl
      simp only [Client.resolve_deposit, h1, h2, Decimal.add, exceptHeldAvail]
      exact ⟨⟨fun _ => by omega, fun _ => by trivial⟩,
        fun _ => ⟨by rw [hz]; omega, by omega, by rw [hadd]; omega, by trivial⟩,
        fun hgt => absurd hgt (by omega)⟩
    | error e2 =>
      have hgt2 : Decimal.val c.held < Decimal.val rem := by
        rcases Nat.lt_or_ge (Decimal.val c.held) (Decimal.val rem) with h | h
        · exact h
        · obtain ⟨cc, hcc⟩ := hiff2.mpr h
          rw [h2] at hcc
          cases hcc
      obtain ⟨hadd, _⟩ := Decimal.addAssign_spec c.held c.held_reserve hh (by omega)
        (by omega)
      simp only [Client.resolve_deposit, h1, h2, Decimal.add, exceptHeldAvail]
      exact ⟨⟨fun habs => by simp at habs, fun hle => absurd hle (by omega)⟩,
        fun hle => absurd hle (by omega),
        fun _ => ⟨by trivial, ⟨Decimal.addAssign c.held c.held_reserve, by trivial, hadd⟩⟩⟩

/-- Witness for c8_resolve_deposit_spec: held 2.0000, held_reserve 1.0000,
resolving 1.5000. -/
theorem c8_resolve_deposit_spec_witness :
    let c : Client := ⟨4, Decimal.zero, ⟨2, 0⟩, ⟨1, 0⟩, Decimal.zero, false⟩
    ((Client.resolve_deposit c ⟨1, 5000⟩).2 = .ok () ↔
        Decimal.val ⟨1, 5000⟩ ≤ Decimal.val c.held + Decimal.val c.held_reserve)
      ∧ (Decimal.val ⟨1, 5000⟩ ≤ Decimal.val c.held + Decimal.val c.held_reserve →
          Decimal.val (Client.resolve_deposit c ⟨1, 5000⟩).1.held_reserve
              = Decimal.val c.held_reserve - Decimal.val ⟨1, 5000⟩
            ∧ Decimal.val (Client.resolve_deposit c ⟨1, 5000⟩).1.held
              = Decimal.val c.held
                - (Decimal.val ⟨1, 5000⟩ - Decimal.val c.held_reserve)
            ∧ Decimal.val (Client.resolve_deposit c ⟨1, 5000⟩).1.available
              = Decimal.val c.available
                + (Decimal.val ⟨1, 5000⟩ - Decimal.val c.held_reserve)
            ∧ exceptHeldAvail (Client.resolve_deposit c ⟨1, 5000⟩).1 = exceptHeldAvail c)
      ∧ (Decimal.val c.held + Decimal.val c.held_reserve < Decimal.val ⟨1, 5000⟩ →
          (Client.resolve_deposit c ⟨1, 5000⟩).1 = c
            ∧ ∃ e, (Client.resolve_deposit c ⟨1, 5000⟩).2 = .error e
                ∧ Decimal.val e = Decimal.val c.held + Decimal.val c.held_reserve) :=
  c8_resolve_deposit_spec ⟨4, Decimal.zero, ⟨2, 0⟩, ⟨1, 0⟩, Decimal.zero, false⟩ ⟨1, 5000⟩
    (by decide) (by decide) (by decide) (by decide) (by decide) (by decide)

theorem applyOp_locked (op : AccountOp) (c : Client) :
    (applyOp op c).locked = (c.locked || isChargebackOp op) := by
  cases op with
  | depositOp a =>
    cases h : Decimal.sub c.held_reserve a <;>
      simp [applyOp, Client.deposit, isChargebackOp, h]
  | withdrawOp a =>
    cases hl : c.locked <;> cases h : Decimal.sub c.available a <;>
      simp [applyOp, Client.withdraw, isChargebackOp, hl, h]
  | disputeDepositOp a =>
    cases h : Decimal.sub c.available a <;>
      simp [applyOp, Client.dispute_deposit, isChargebackOp, h]
  | disputeWithdrawalOp a =>
    simp [applyOp, Client.dispute_withdrawal, isChargebackOp]
  | resolveDepositOp a =>
    cases h : Decimal.sub c.held_reserve a with
    | ok v => simp [applyOp, Client.resolve_deposit, isChargebackOp, h]
    | error rem =>
      cases h2 : Decimal.sub c.held rem <;>
        simp [applyOp, Client.resolve_deposit, isChargebackOp, h, h2]
  | resolveWithdrawalOp a =>
    cases h : Decimal.sub c.reserve a <;>
      simp [applyOp, Client.resolve_withdrawal, isChargebackOp, h]
  | chargebackDepositOp a =>
    cases h : Decimal.sub c.held_reserve a with
    | ok v => simp [applyOp, Client.chargeback_deposit, isChargebackOp, h]
    | error rem =>
      cases h2 : Decimal.sub c.held rem <;>
        simp [applyOp, Client.chargeback_deposit, isChargebackOp, h, h2]
  | chargebackWithdrawalOp a =>
    cases h : Decimal.sub c.reserve a <;>
      simp [applyOp, Client.chargeback_withdrawal, isChargebackOp, h]

theorem applyOps_locked (l : List AccountOp) (c : Client) (h : c.locked = true) :
    (applyOps l c).locked = true := by
  induction l generalizing c with
  | nil => exact h
  | cons op l ih =>
    rw [applyOps, List.foldl_cons]
    exact ih (applyOp op c) (by rw [applyOp_locked, h, Bool.true_or])

theorem withdraw_of_locked (c : Client) (a : Decimal) (h : c.locked = true) :
    (Client.withdraw c a).2 = .error none := by
  cases hs : Decimal.sub c.available a <;> simp [Client.withdraw, h, hs]

theorem chargeback_deposit_locked (c : Client) (x : Decimal) :
    (Client.chargeback_deposit c x).1.locked = true := by
  cases h : Decimal.sub c.held_reserve x with
  | ok v => simp [Client.chargeback_deposit, h]
  | error rem =>
    cases h2 : Decimal.sub c.held rem <;> simp [Client.chargeback_deposit, h, h2]

theorem chargeback_withdrawal_locked (c : Client) (x : Decimal) :
    (Client.chargeback_withdrawal c x).1.locked = true := by
  cases h : Decimal.sub c.reserve x <;> simp [Client.chargeback_withdrawal, h]

/-- C7: both chargeback operations set locked unconditionally (also when
they return an error); no account operation ever clears locked (the locked
flag after any operation is the old flag or-ed with whether the operation
is a chargeback); hence after a chargeback operation, every later withdraw
in any sequence of account operations fails with the Frozen error
(`.error none`), whatever the available balance. -/
theorem c7_locked_monotone_frozen :
    (∀ c x, (Client.chargeback_deposit c x).1.locked = true
        ∧ (Client.chargeback_withdrawal c x).1.locked = true)
      ∧ (∀ op c, (applyOp op c).locked = (c.locked || isChargebackOp op))
      ∧ (∀ c x l a,
          (Client.withdraw (applyOps l (Client.chargeback_deposit c x).1) a).2
            = .error none)
      ∧ (∀ c x l a,
          (Client.withdraw (applyOps l (Client.chargeback_withdrawal c x).1) a).2
            = .error none) :=
  ⟨fun c x => ⟨chargeback_deposit_locked c x, chargeback_withdrawal_locked c x⟩,
    applyOp_locked,
    fun c x l a => withdraw_of_locked _ a
      (applyOps_locked l _ (chargeback_deposit_locked c x)),
    fun c x l a => withdraw_of_locked _ a
      (applyOps_locked l _ (chargeback_withdrawal_locked c x))⟩

/-- The transitions MemoryClient::update actually accepts: the five
transitions of the spec's table plus three more that the catch-all arm of
the source lets through (Committed→Resolved, Disputed→Committed,
Disputed→Disputed). -/
def allowedT : TState → TState → Bool
  | .Committed, .Disputed => true
  | .Committed, .Resolved => true
  | .Disputed, .Committed => true
  | .Disputed, .Resolved => true
  | .Disputed, .Disputed => true
  | .Disputed, .ChargedBack => true
  | .Resolved, .Committed => true
  | .ChargedBack, .ChargedBackFinal => true
  | _, _ => false

/-- A ledger holding one transaction, id 1, in state Committed. -/
def c3tx : DisputableTransaction := ⟨1, 1, .Deposit ⟨1, 0⟩⟩

/-- Ledger map with the single Committed entry c3tx at id 1. -/
def c3map : TxMap := insertT (fun _ => none) 1 (c3tx, .Committed)

/-- C3 counterexample: Committed→Resolved is not one of the five legal
transitions of the claim, so update should fail with
WrongState(Committed) and leave the entry Committed — but the code
accepts it, returns Ok, and stores state Resolved. -/
theorem c3_committed_to_resolved_accepted :
    (txUpdate c3map 1 .Resolved).2 = .ok c3tx
      ∧ (txUpdate c3map 1 .Resolved).1 1 = some (c3tx, .Resolved) := by decide

/-- C3 amended: update on a missing id fails with NotFound; update on a
stored entry fails with WrongState(current) and leaves the map untouched
exactly when the requested transition is outside the accepted table —
which is the claim's five legal transitions plus Committed→Resolved,
Disputed→Committed and Disputed→Disputed; transitions inside the table
succeed, returning the stored record and storing the new state. -/
theorem c3_update_spec (m : TxMap) (id : Nat) (s' : TState) :
    (m id = none → txUpdate m id s' = (m, .error .NotFound))
      ∧ (∀ t s, m id = some (t, s) → allowedT s s' = false →
          txUpdate m id s' = (m, .error (.WrongState s)))
      ∧ (∀ t s, m id = some (t, s) → allowedT s s' = true →
          txUpdate m id s' = (insertT m id (t, s'), .ok t)) := by
  refine ⟨fun h => by simp [txUpdate, h], fun t s hm hall => ?_, fun t s hm hall => ?_⟩
  · cases s <;> cases s' <;> simp_all [txUpdate, allowedT, hm]
  · cases s <;> cases s' <;> simp_all [txUpdate, allowedT, hm]

/-- Witness for c3_update_spec: requesting ChargedBack on the Committed
entry of c3map fails with WrongState(Committed) and keeps the map. -/
theorem c3_update_spec_witness :
    txUpdate c3map 1 .ChargedBack = (c3map, .error (.WrongState .Committed)) :=
  (c3_update_spec c3map 1 .ChargedBack).2.1 c3tx .Committed rfl rfl

/-- Event 1: deposit of 1.0000 for client 1, tx 1. -/
def c4e1 : Transaction := ⟨1, 1, .Disputable (.Deposit ⟨1, 0⟩)⟩

/-- Event 2: dispute of tx 1, from client 1. -/
def c4e2 : Transaction := ⟨1, 1, .Dispute⟩

/-- Event 3: resolve of tx 1, but naming client 2, whose fresh account
holds nothing, so the account-level resolve fails. -/
def c4e3 : Transaction := ⟨2, 1, .Resolve⟩

/-- The empty engine state. -/
def st0 : EngineState := ⟨fun _ => none, fun _ => none⟩

/-- C4: after deposit(1.0)/dispute/failed-resolve on tx 1, the ledger
update to Resolved succeeded, the account-level resolve failed, and the
rollback `update(id, Disputed)` was silently rejected (Resolved→Disputed
is refused by MemoryClient::update), so the entry ends the event in state
Resolved — not Disputed as the claim requires. -/
theorem c4_failed_resolve_ends_resolved :
    (processTx c4e3 (processTx c4e2 (processTx c4e1 st0))).txmap 1
        = some (⟨1, 1, .Deposit ⟨1, 0⟩⟩, .Resolved)
      ∧ (processTx c4e3 (processTx c4e2 (processTx c4e1 st0))).txmap 1
        ≠ some (⟨1, 1, .Deposit ⟨1, 0⟩⟩, .Disputed) := by decide

theorem processTx_clients_eq (tr : Transaction) (st : EngineState) :
    ∃ c, (processTx tr st).clients = insertC st.clients tr.client_id c := by
  rcases tr with ⟨cid, txid, ty⟩
  cases ty with
  | Disputable dt =>
    cases dt with
    | Deposit d => exact ⟨_, rfl⟩
    | Withdrawal w =>
      simp only [processTx]
      split <;> exact ⟨_, rfl⟩
  | Dispute =>
    simp only [processTx]
    split <;> exact ⟨_, rfl⟩
  | Resolve =>
    simp only [processTx]
    split
    · exact ⟨_, rfl⟩
    · split <;> exact ⟨_, rfl⟩
  | Chargeback =>
    simp only [processTx]
    split
    · exact ⟨_, rfl⟩
    · split <;> exact ⟨_, rfl⟩

/-- C10: every event mutates only the account named by the event's client
field — all other accounts, including the one stored in the disputed
transaction record when it differs, are untouched — and for a
Dispute/Resolve/Chargeback whose ledger update succeeds, the (possibly
freshly created) account of the event's client receives the dispatched
account operation, with the amount taken from the stored record. -/
theorem c10_event_client_targeted (st : EngineState) (tr : Transaction) :
    (∀ k, k ≠ tr.client_id → (processTx tr st).clients k = st.clients k)
      ∧ (tr.type_ = .Dispute → ∀ tm r,
          txUpdate st.txmap tr.transaction_id .Disputed = (tm, .ok r) →
          (processTx tr st).clients tr.client_id
            = some (match r.type_ with
                | .Deposit v =>
                    Client.dispute_deposit (getOrNew st.clients tr.client_id) v
                | .Withdrawal v =>
                    Client.dispute_withdrawal (getOrNew st.clients tr.client_id) v))
      ∧ (tr.type_ = .Resolve → ∀ tm r,
          txUpdate st.txmap tr.transaction_id .Resolved = (tm, .ok r) →
          (processTx tr st).clients tr.client_id
            = some (match r.type_ with
                | .Deposit v =>
                    (Client.resolve_deposit (getOrNew st.clients tr.client_id) v).1
                | .Withdrawal v =>
                    (Client.resolve_withdrawal (getOrNew st.clients tr.client_id) v).1))
      ∧ (tr.type_ = .Chargeback → ∀ tm r,
          txUpdate st.txmap tr.transaction_id .ChargedBack = (tm, .ok r) →
          (processTx tr st).clients tr.client_id
            = some (match r.type_ with
                | .Deposit v =>
                    (Client.chargeback_deposit (getOrNew st.clients tr.client_id) v).1
                | .Withdrawal v =>
                    (Client.chargeback_withdrawal (getOrNew st.clients tr.client_id) v).1)) := by
  refine ⟨fun k hk => ?_, fun hty tm r hupd => ?_, fun hty tm r hupd => ?_,
    fun hty tm r hupd => ?_⟩
  · obtain ⟨c, hc⟩ := processTx_clients_eq tr st
    rw [hc]
    simp [insertC, hk]
  · rcases tr with ⟨cid, txid, ty⟩
    dsimp only at hty hupd ⊢
    subst hty
    simp only [processTx, hupd]
    simp [insertC]
  · rcases tr with ⟨cid, txid, ty⟩
    dsimp only at hty hupd ⊢
    subst hty
    simp only [processTx, hupd]
    cases hr : r.type_ with
    | Deposit v =>
      rcases hp : Client.resolve_deposit (getOrNew st.clients cid) v with ⟨c, res⟩
      cases res <;> simp [hr, hp, insertC]
    | Withdrawal v =>
      rcases hp : Client.resolve_withdrawal (getOrNew st.clients cid) v with ⟨c, res⟩
      cases res <;> simp [hr, hp, insertC]
  · rcases tr with ⟨cid, txid, ty⟩
    dsimp only at hty hupd ⊢
    subst hty
    simp only [processTx, hupd]
    cases hr : r.type_ with
    | Deposit v =>
      rcases hp : Client.chargeback_deposit (getOrNew st.clients cid) v with ⟨c, res⟩
      cases res <;> simp [hr, hp, insertC]
    | Withdrawal v =>
      rcases hp : Client.chargeback_withdrawal (getOrNew st.clients cid) v with ⟨c, res⟩
      cases res <;> simp [hr, hp, insertC]

/-- Engine state for the c10 witness: no accounts, ledger c3map (tx 1,
stored for client 1, Committed). -/
def c10st : EngineState := ⟨fun _ => none, c3map⟩

/-- A dispute event for tx 1 arriving with client field 2, different from
the stored record's client 1. -/
def c10tr : Transaction := ⟨2, 1, .Dispute⟩

/-- Witness for c10_event_client_targeted: the stored record names client
1, the event names client 2; account 1 is untouched and account 2 is
created and receives the dispute. -/
theorem c10_event_client_targeted_witness :
    (processTx c10tr c10st).clients 1 = c10st.clients 1
      ∧ (processTx c10tr c10st).clients c10tr.client_id
        = some (match c3tx.type_ with
            | .Deposit v =>
                Client.dispute_deposit (getOrNew c10st.clients c10tr.client_id) v
            | .Withdrawal v =>
                Client.dispute_withdrawal (getOrNew c10st.clients c10tr.client_id) v) :=
  ⟨(c10_event_client_targeted c10st c10tr).1 1 (by decide),
    (c10_event_client_targeted c10st c10tr).2.1 rfl
      (insertT c3map 1 (c3tx, .Disputed)) c3tx rfl⟩

example : Decimal.add (Decimal.new 10 5) (Decimal.new 1 3) = Decimal.new 11 8 := by decide
example : Decimal.add (Decimal.new 10 5000) (Decimal.new 1 8000) = Decimal.new 12 3000 := by
  decide
example : Decimal.sub (Decimal.new 10 5000) (Decimal.new 1 8000) = .ok (Decimal.new 8 7000) := by
  decide
example : Decimal.sub (Decimal.new 1 8000) (Decimal.new 1 8000) = .ok (Decimal.new 0 0) := by
  decide
example : Decimal.sub (Decimal.new 1 5000) (Decimal.new 1 8000) = .error (Decimal.new 0 3000) := by
  decide
example : Decimal.sub (Decimal.new 1 5000) (Decimal.new 5 0) = .error (Decimal.new 3 5000) := by
  decide

end STM
